import Mathlib

/-!
Shallow embedding of `src/icevision/tfms/albumentations/tfms.py`.

Conventions of the embedding:
* Python floats are modelled as rationals (`ℚ`); Python ints as `ℤ` (or `ℕ`
  for list lengths and image shapes, which are nonnegative by construction).
* Python `//` on ints is floor division, modelled by `Int.fdiv` (`Nat./` where
  both operands are natural numbers).
* Fallible code paths (Python `assert`, `raise`, `ZeroDivisionError`,
  `ValueError` from `range` with zero step, `UnboundLocalError`) are modelled
  with `Except AErr`.
* The albumentations pipeline itself is an external collaborator: one call
  `d = self.tfms(**params)` is modelled by an explicit pipeline-result record
  `DOut` passed to `apply`; theorems quantify over admissible `DOut` values.
-/

namespace Icevision

/-- Python 3 built-in `round` on a float: round half to even (banker's
rounding).  This models the Python builtin, which `py3round` in the source
calls. -/
def pyRound (q : ℚ) : ℤ :=
  if Int.fract q = 1/2 then (if Even ⌊q⌋ then ⌊q⌋ else ⌊q⌋ + 1) else round q

/-- Embeds `py3round` (tfms.py lines 248-253): unified rounding across Python
versions; `abs(round(number) - number) == 0.5` detects a tie, in which case
`int(2.0 * round(number / 2.0))` is returned. -/
def py3round (number : ℚ) : ℤ :=
  if |(pyRound number : ℚ) - number| = 1/2 then 2 * pyRound (number / 2)
  else pyRound number

/-- Embeds `_func_max_size` (tfms.py lines 256-261).  `scale` is
`max_size / float(func(width, height))`; modelled exactly over `ℚ`.  (Python
would raise ZeroDivisionError when `func width height = 0`; here rational
division by zero gives `0`, and theorems about this function assume the
divisor is nonzero.)  The function is deterministic by construction. -/
def _func_max_size (height width max_size : ℤ) (func : ℤ → ℤ → ℤ) : ℤ × ℤ :=
  let scale : ℚ := (max_size : ℚ) / ((func width height : ℤ) : ℚ)
  if scale ≠ 1 then (py3round ((height : ℚ) * scale), py3round ((width : ℚ) * scale))
  else (height, width)

/-- Embeds `filter_boxes` (tfms.py lines 234-245): clip a box in the padded
canvas coordinate space against the centered-pad content region given the
pre-pad content height and width. -/
def filter_boxes (xyxy : ℚ × ℚ × ℚ × ℚ) (h w : ℤ) : ℚ × ℚ × ℚ × ℚ :=
  let x1 := xyxy.1
  let y1 := xyxy.2.1
  let x2 := xyxy.2.2.1
  let y2 := xyxy.2.2.2
  if w ≥ h then
    let pad := (w - h).fdiv 2
    let h1 := pad
    let h2 := w - pad
    (x1, max y1 (h1 : ℚ), x2, min y2 (h2 : ℚ))
  else
    let pad := (h - w).fdiv 2
    let w1 := pad
    let w2 := h - pad
    (max x1 (w1 : ℚ), y1, min x2 (w2 : ℚ), y2)

/-- Embeds `_check_kps_coords` (tfms.py lines 271-282): returns `1` if the
point lies inside the centered-pad content region, else `0` (Python
`int(bool)`). -/
def _check_kps_coords (p : ℚ × ℚ) (h w : ℤ) : ℚ :=
  if w ≥ h then
    let pad := (w - h).fdiv 2
    let h1 := pad
    let h2 := w - pad
    if p.1 ≤ (w : ℚ) ∧ 0 ≤ p.1 ∧ (h1 : ℚ) ≤ p.2 ∧ p.2 ≤ (h2 : ℚ) then 1 else 0
  else
    let pad := (h - w).fdiv 2
    let w1 := pad
    let w2 := h - pad
    if p.1 ≤ (w2 : ℚ) ∧ (w1 : ℚ) ≤ p.1 ∧ 0 ≤ p.2 ∧ p.2 ≤ (h : ℚ) then 1 else 0

/-- Embeds `filter_keypoints` (tfms.py lines 220-231).  The Python loop is
index-local, so it is modelled as a map over the zip of the transformed
points with the incoming visibilities: for `v[i] > 0` the visibility is
recomputed by `_check_kps_coords` (kept at `v[i]` if the check yields `1`),
and any point whose new visibility is `0` has its coordinates zeroed. -/
def filter_keypoints (tfms_kps : List (ℚ × ℚ)) (h w : ℤ) (v : List ℚ) :
    List (ℚ × ℚ × ℚ) :=
  (tfms_kps.zip v).map (fun pv =>
    let vn : ℚ :=
      if 0 < pv.2 then
        (let c := _check_kps_coords pv.1 h w; if c = 1 then pv.2 else c)
      else pv.2
    if vn = 0 then ((0 : ℚ), (0 : ℚ), (0 : ℚ)) else (pv.1.1, pv.1.2, vn))

/-- Parses a flat `[x, y, vis, x, y, vis, ...]` list into `(x, y, vis)`
triples, discarding a trailing fragment shorter than 3. -/
def toTriples : List ℚ → List (ℚ × ℚ × ℚ)
  | x :: y :: vis :: rest => (x, y, vis) :: toTriples rest
  | _ => []

/-- Modelled from the spec: `icevision.core` KeyPoints objects (not under
src/) carry an ordered list of `(x, y, visibility)` triples plus a parallel
list of per-point labels; `KeyPoints.from_xyv` builds one from a flat
`[x, y, v, ...]` list, and `.xy` / `.visible` project the coordinate pairs
and the visibility values. -/
structure KeyPoints where
  xyv : List ℚ
  labels : List ℤ
deriving DecidableEq

def KeyPoints.from_xyv (k : List ℚ) (cl : List ℤ) : KeyPoints := ⟨k, cl⟩

def KeyPoints.xy (o : KeyPoints) : List (ℚ × ℚ) :=
  (toTriples o.xyv).map (fun t => (t.1, t.2.1))

def KeyPoints.visible (o : KeyPoints) : List ℚ :=
  (toTriples o.xyv).map (fun t => t.2.2)

/-- Modelled from the spec: `icevision.core` BBox (not under src/), an
axis-aligned box `(x1, y1, x2, y2)` in absolute pixel coordinates;
`.xyxy` and `.from_xyxy` convert to and from the plain tuple. -/
structure BBox where
  x1 : ℚ
  y1 : ℚ
  x2 : ℚ
  y2 : ℚ
deriving DecidableEq

def BBox.from_xyxy (t : ℚ × ℚ × ℚ × ℚ) : BBox := ⟨t.1, t.2.1, t.2.2.1, t.2.2.2⟩

def BBox.xyxy (b : BBox) : ℚ × ℚ × ℚ × ℚ := (b.x1, b.y1, b.x2, b.y2)

/-- Modelled from the spec: `icevision.core` MaskArray (not under src/), a
stack of per-instance masks; each mask itself is opaque to the adapter and
modelled by an integer token. -/
structure MaskArray where
  data : List ℤ
deriving DecidableEq

/-- Image pixel array, reduced to its shape (the adapter reads only
`img.shape`). -/
structure Image where
  height : ℕ
  width : ℕ
deriving DecidableEq

/-- Albumentations transform objects as configured operations.  `p` models
the `.p` attribute (albumentations transforms default to `p = 0.5`), and
`max_size` the attribute of the two ratio resizes. -/
inductive ATransform where
  | horizontalFlip
  | shiftScaleRotate
  | rgbShift
  | randomBrightnessContrast
  | blur
  | resize (height width : ℤ)
  | longestMaxSize (max_size : ℤ)
  | smallestMaxSize (max_size : ℤ)
  | padIfNeeded (min_height min_width : ℤ)
  | randomSizedBBoxSafeCrop (height width : ℤ) (p : ℚ)
  | oneOrOther (first second : ATransform) (p : ℚ)
deriving DecidableEq

/-- Models Python `str(type(el))` for each transform object, used by
`get_transform` for substring matching. -/
def ATransform.typeName : ATransform → String
  | .horizontalFlip => "<class albumentations.augmentations.transforms.HorizontalFlip>"
  | .shiftScaleRotate => "<class albumentations.augmentations.transforms.ShiftScaleRotate>"
  | .rgbShift => "<class albumentations.augmentations.transforms.RGBShift>"
  | .randomBrightnessContrast => "<class albumentations.augmentations.transforms.RandomBrightnessContrast>"
  | .blur => "<class albumentations.augmentations.transforms.Blur>"
  | .resize _ _ => "<class albumentations.augmentations.transforms.Resize>"
  | .longestMaxSize _ => "<class albumentations.augmentations.transforms.LongestMaxSize>"
  | .smallestMaxSize _ => "<class albumentations.augmentations.transforms.SmallestMaxSize>"
  | .padIfNeeded _ _ => "<class albumentations.augmentations.transforms.PadIfNeeded>"
  | .randomSizedBBoxSafeCrop _ _ _ => "<class albumentations.augmentations.transforms.RandomSizedBBoxSafeCrop>"
  | .oneOrOther _ _ _ => "<class albumentations.core.composition.OneOrOther>"

def ATransform.p : ATransform → ℚ
  | .randomSizedBBoxSafeCrop _ _ p => p
  | .oneOrOther _ _ p => p
  | _ => 1/2

def ATransform.max_size : ATransform → ℤ
  | .longestMaxSize s => s
  | .smallestMaxSize s => s
  | _ => 0

/-- Tests whether the character list `needle` starts the list `hay`. -/
def charsStartWith : List Char → List Char → Bool
  | [], _ => true
  | _ :: _, [] => false
  | a :: as, b :: bs => a = b && charsStartWith as bs

/-- Tests whether `needle` occurs contiguously inside `hay`. -/
def charsContain : List Char → List Char → Bool
  | needle, [] => charsStartWith needle []
  | needle, b :: t => charsStartWith needle (b :: t) || charsContain needle t

/-- Models the Python membership test `t in s` on strings. -/
def strContains (hay pat : String) : Bool := charsContain pat.toList hay.toList

/-- Embeds `get_transform` (tfms.py lines 264-268): first element of the
list whose type name contains `t` as a substring, else `None`. -/
def get_transform (tfms_list : List ATransform) (t : String) : Option ATransform :=
  tfms_list.find? (fun el => strContains el.typeName t)

def nameOneOrOther : String := "OneOrOther"

def namePad : String := "Pad"

def nameSmallestMaxSize : String := "SmallestMaxSize"

def nameLongestMaxSize : String := "LongestMaxSize"

/-- Size argument of the builders: a single int or an explicit
`(height, width)` pair. -/
inductive PySize where
  | int (s : ℤ)
  | pair (height width : ℤ)
deriving DecidableEq

/-- Embeds `_resize` (tfms.py lines 10-11): `ratio_resize(size)` when the
size is an int, else `A.Resize(*size)`.  The source default for
`ratio_resize` is `A.LongestMaxSize`; call sites pass it explicitly here. -/
def _resize (size : PySize) (ratio_resize : ℤ → ATransform) : ATransform :=
  match size with
  | .int s => ratio_resize s
  | .pair h w => .resize h w

/-- Models the idiom `height, width = (size, size) if isinstance(size, int)
else size` used at tfms.py line 65. -/
def sizeHW (size : PySize) : ℤ × ℤ :=
  match size with
  | .int s => (s, s)
  | .pair h w => (h, w)

/-- Embeds `aug_tfms` (tfms.py lines 24-80): assembles the ordered transform
list from the optionally-disabled named steps and removes the `None`
entries.  `crop_fn` and `pad` are partially-configured constructors that
receive the target size at build time, exactly as in the source. -/
def aug_tfms (size : PySize) (presize : Option PySize)
    (horizontal_flip shift_scale_rotate rgb_shift lightning blur : Option ATransform)
    (crop_fn : Option (ℤ → ℤ → ATransform)) (pad : Option (ℤ → ℤ → ATransform)) :
    List ATransform :=
  let hw := sizeHW size
  let t1 : List (Option ATransform) :=
    [presize.map (fun ps => _resize ps ATransform.smallestMaxSize)]
  let t2 := t1 ++ [horizontal_flip, shift_scale_rotate, rgb_shift, lightning, blur]
  let t3 := t2 ++
    (match crop_fn with
     | some cf =>
        let crop := cf hw.1 hw.2
        [some (ATransform.oneOrOther crop (_resize size ATransform.longestMaxSize) crop.p)]
     | none => [some (_resize size ATransform.longestMaxSize)])
  let t4 := t3 ++ [pad.map (fun pf => pf hw.1 hw.2)]
  t4.filterMap id

/-- Result of one albumentations pipeline call `d = self.tfms(**params)`.
The pipeline is external to this repository, so its output is a parameter of
the embedded `apply`: `labels` is the pipeline's transformed copy of the
synthetic identity index list `range(len(labels))` (survivor indices),
`bboxes` the surviving transformed boxes (for every survivor index, in the
same order), `masks` the transformed full mask stack (indexed by original
instance index), and `keypoints` the transformed flat point list (the
adapter configures `remove_invisible=False`, so the pipeline contract is
that its length equals the flattened input length). -/
structure DOut where
  image : Image
  labels : List ℕ
  bboxes : List (ℚ × ℚ × ℚ × ℚ)
  masks : List ℤ
  keypoints : List (ℚ × ℚ)
deriving DecidableEq

/-- Registered processors of the adapter's composed pipeline: presence flags
of the `bboxes` and `keypoints` entries of `self.tfms.processors`. -/
structure Procs where
  bboxes : Bool
  keypoints : Bool
deriving DecidableEq

/-- Adapter construction (tfms.py lines 90-99) registers both a bbox
processor and a keypoint processor on the composed pipeline. -/
def Adapter.initProcs : Procs := ⟨true, true⟩

/-- Output record of `Adapter.apply`: only the requested annotation fields
are present. -/
structure Out where
  img : Image
  height : ℕ
  width : ℕ
  labels : Option (List ℤ)
  bboxes : Option (List BBox)
  masks : Option MaskArray
  iscrowds : Option (List ℤ)
  keypoints : Option (List KeyPoints)
deriving DecidableEq

/-- Failure modes of `apply`.  `configurationError` is the spec's
ConfigurationError (the crop-with-keypoints assert at tfms.py lines
120-122); `internalConsistencyError` is the spec's InternalConsistencyError
(the keypoint-count assert at line 165); `assertionError` covers the other
plain asserts (lines 127 and 176); the remaining constructors model the
runtime errors Python itself would raise (`len(l) // 0`, `range` with zero
step, and the `height_size` local referenced before assignment at line
190). -/
inductive AErr where
  | configurationError
  | internalConsistencyError
  | assertionError
  | zeroDivisionError
  | valueError
  | unboundLocalError
deriving DecidableEq

/-- Models Python `range(start, stop, step)` for a positive step (the only
use in the source is `range(0, len(l), len(l) // len(keypoints))`). -/
def pyRangeStep (start stop step : ℕ) : List ℕ :=
  (List.range ((stop - start + step - 1) / step)).map (fun j => start + step * j)

/-- Embeds tfms.py lines 131-146: starting from the original image shape,
re-derive the pre-pad content size through the `SmallestMaxSize` and
`LongestMaxSize` bounds found by introspection. -/
def contentSize (tfms_list : List ATransform) (img : Image) : ℤ × ℤ :=
  let hw0 : ℤ × ℤ := ((img.height : ℤ), (img.width : ℤ))
  let hw1 :=
    match get_transform tfms_list nameSmallestMaxSize with
    | some t => _func_max_size hw0.1 hw0.2 t.max_size min
    | none => hw0
  match get_transform tfms_list nameLongestMaxSize with
  | some t => _func_max_size hw1.1 hw1.2 t.max_size max
  | none => hw1

/-- Clipping basis used for keypoints (tfms.py lines 166-169): the re-derived
content size when a pad step is present, else the transformed image shape. -/
def contentBasis (tfms_list : List ATransform) (img : Image) (d : DOut) : ℤ × ℤ :=
  if (get_transform tfms_list namePad).isSome then contentSize tfms_list img
  else ((d.image.height : ℤ), (d.image.width : ℤ))

/-- Flattens one `(x, y, vis)` triple, as `itertools.chain.from_iterable`
does elementwise at tfms.py line 171. -/
def tripleFlat (t : ℚ × ℚ × ℚ) : List ℚ := [t.1, t.2.1, t.2.2]

/-- Embeds the keypoint reconstruction of `Adapter.apply` (tfms.py lines
162-176): check the pipeline returned as many points as were sent, filter
them against the content basis, flatten, and regroup the flat value list
into chunks of `len(l) // len(keypoints)` values; the final assert demands
exactly one chunk per input instance.  Returns the chunk list. -/
def kpStage (tfms_list : List ATransform) (img : Image) (kps : List KeyPoints)
    (d : DOut) : Except AErr (List (List ℚ)) :=
  let k := kps.flatMap KeyPoints.xy
  let v := kps.flatMap KeyPoints.visible
  if d.keypoints.length ≠ k.length then .error .internalConsistencyError
  else
    let hw := contentBasis tfms_list img d
    let tra := filter_keypoints d.keypoints hw.1 hw.2 v
    let l0 := tra.flatMap tripleFlat
    if kps.length = 0 then .error .zeroDivisionError
    else
      let step := l0.length / kps.length
      if step = 0 then .error .valueError
      else
        let chunks := (pyRangeStep 0 l0.length step).map (fun i => (l0.drop i).take step)
        if chunks.length ≠ kps.length then .error .assertionError
        else .ok chunks

/-- Embeds the output reconstruction of `Adapter.apply` (tfms.py lines
158-217) after the keypoint chunks are available (`chunksOpt` is `some`
exactly when keypoints were supplied; `cl` is `keypoints[0].labels`).  Each
requested field is rebuilt from the pipeline survivors `d.labels`; when
keypoints are present, position `j` of the survivor list is kept only when
chunk `j` has positive sum.  For boxes with a pad step present, the source
reads the locals `height_size`/`width_size`, which are only ever assigned
inside the `keypoints is not None` branch: with no keypoints this raises
UnboundLocalError unless the comprehension body never runs (`d.bboxes`
empty). -/
def buildOut (tfms_list : List ATransform) (img : Image) (labels : Option (List ℤ))
    (bboxes : Option (List BBox)) (masks : Option MaskArray) (iscrowds : Option (List ℤ))
    (chunksOpt : Option (List (List ℚ))) (cl : List ℤ) (d : DOut) : Except AErr Out :=
  let outH := d.image.height
  let outW := d.image.width
  let msizes : Option (ℤ × ℤ) :=
    match chunksOpt with
    | some _ =>
        if (get_transform tfms_list namePad).isSome then some (contentSize tfms_list img)
        else none
    | none => none
  let outLabels : Option (List ℤ) :=
    labels.map (fun L =>
      match chunksOpt with
      | some chunks =>
          ((d.labels.zip chunks).filter (fun pr => 0 < pr.2.sum)).map
            (fun pr => L.getD pr.1 0)
      | none => d.labels.map (fun i => L.getD i 0))
  let outMasks : Option MaskArray :=
    masks.map (fun _M =>
      match chunksOpt with
      | some chunks =>
          ⟨((d.labels.zip chunks).filter (fun pr => 0 < pr.2.sum)).map
            (fun pr => d.masks.getD pr.1 0)⟩
      | none => ⟨d.labels.map (fun i => d.masks.getD i 0)⟩)
  let outIscrowds : Option (List ℤ) :=
    iscrowds.map (fun IC =>
      match chunksOpt with
      | some chunks =>
          ((d.labels.zip chunks).filter (fun pr => 0 < pr.2.sum)).map
            (fun pr => IC.getD pr.1 0)
      | none => d.labels.map (fun i => IC.getD i 0))
  let outKeypoints : Option (List KeyPoints) :=
    chunksOpt.map (fun chunks =>
      (chunks.filter (fun kk => 0 < kk.sum)).map (fun kk => KeyPoints.from_xyv kk cl))
  match bboxes with
  | none => .ok ⟨d.image, outH, outW, outLabels, none, outMasks, outIscrowds, outKeypoints⟩
  | some _B =>
    let bbE : Except AErr (List (ℚ × ℚ × ℚ × ℚ)) :=
      if (get_transform tfms_list namePad).isSome then
        match msizes with
        | some hw => .ok (d.bboxes.map (fun xyxy => filter_boxes xyxy hw.1 hw.2))
        | none => if d.bboxes.isEmpty then .ok [] else .error .unboundLocalError
      else .ok (d.bboxes.map (fun xyxy => filter_boxes xyxy (outH : ℤ) (outW : ℤ)))
    match bbE with
    | .error e => .error e
    | .ok bb =>
      let outBb : List BBox :=
        match chunksOpt with
        | some chunks =>
            ((bb.zip chunks).filter (fun pr => 0 < pr.2.sum)).map
              (fun pr => BBox.from_xyxy pr.1)
        | none => bb.map BBox.from_xyxy
      .ok ⟨d.image, outH, outW, outLabels, some outBb, outMasks, outIscrowds, outKeypoints⟩

/-- Embeds the part of `Adapter.apply` that runs before the processor pops
(tfms.py lines 113-146): with keypoints supplied, the crop/keypoint
exclusion assert (lines 119-122) and the flattened-length assert (line
127). -/
def applyPre (tfms_list : List ATransform) (keypoints : Option (List KeyPoints)) :
    Except AErr Unit :=
  match keypoints with
  | none => .ok ()
  | some kps =>
    if (get_transform tfms_list nameOneOrOther).isSome then .error .configurationError
    else
      let k := kps.flatMap KeyPoints.xy
      let c := kps.flatMap KeyPoints.labels
      let v := kps.flatMap KeyPoints.visible
      if k.length = c.length ∧ c.length = v.length then .ok ()
      else .error .assertionError

/-- Embeds the post-pop part of `Adapter.apply`: the pipeline call (whose
result `d` is a parameter) followed by output reconstruction. -/
def applyCore (tfms_list : List ATransform) (img : Image) (labels : Option (List ℤ))
    (bboxes : Option (List BBox)) (masks : Option MaskArray) (iscrowds : Option (List ℤ))
    (keypoints : Option (List KeyPoints)) (d : DOut) : Except AErr Out :=
  match keypoints with
  | none => buildOut tfms_list img labels bboxes masks iscrowds none [] d
  | some kps =>
    match kpStage tfms_list img kps d with
    | .error e => .error e
    | .ok chunks =>
        buildOut tfms_list img labels bboxes masks iscrowds (some chunks)
          (kps.headD ⟨[], []⟩).labels d

/-- Embeds `Adapter.apply` (tfms.py lines 101-217).  The first component is
the returned record (or the raised error); the second is the processor
registry after the call, reflecting the in-place
`self.tfms.processors.pop(...)` at lines 151-154, which runs after the
early keypoint asserts and before everything else that can fail. -/
def apply (tfms_list : List ATransform) (img : Image) (labels : Option (List ℤ))
    (bboxes : Option (List BBox)) (masks : Option MaskArray) (iscrowds : Option (List ℤ))
    (keypoints : Option (List KeyPoints)) (procs : Procs) (d : DOut) :
    Except AErr Out × Procs :=
  match applyPre tfms_list keypoints with
  | .error e => (.error e, procs)
  | .ok _ =>
    let procs1 : Procs := ⟨procs.bboxes && bboxes.isSome, procs.keypoints && keypoints.isSome⟩
    (applyCore tfms_list img labels bboxes masks iscrowds keypoints d, procs1)

/-- Decidable equality for pipeline results, so concrete runs of `apply`
can be checked by `decide`. -/
instance {e a : Type} [DecidableEq e] [DecidableEq a] : DecidableEq (Except e a) :=
  fun x y =>
  match x, y with
  | .error u, .error v =>
      if h : u = v then .isTrue (congrArg _ h)
      else .isFalse (fun hh => h (Except.error.inj hh))
  | .ok u, .ok v =>
      if h : u = v then .isTrue (congrArg _ h)
      else .isFalse (fun hh => h (Except.ok.inj hh))
  | .error _, .ok _ => .isFalse (fun hh => Except.noConfusion hh)
  | .ok _, .error _ => .isFalse (fun hh => Except.noConfusion hh)

section ListHelpers

variable {α β γ : Type}

/-- Filtering a zip on a predicate of the second component yields lists of
equal length for equal-length first components. -/
theorem zip_filter_snd_length (q : List ℚ → Prop) [DecidablePred q] :
    ∀ (a : List α) (b : List β) (c : List (List ℚ)), a.length = b.length →
      ((a.zip c).filter (fun pr => q pr.2)).length =
        ((b.zip c).filter (fun pr => q pr.2)).length := by
  intro a
  induction a with
  | nil =>
      intro b c h
      cases b with
      | nil => rfl
      | cons y ys => simp at h
  | cons x xs ih =>
      intro b c h
      cases b with
      | nil => simp at h
      | cons y ys =>
          cases c with
          | nil => rfl
          | cons z zs =>
              simp only [List.zip_cons_cons, List.filter_cons]
              by_cases hq : q z
              · simp only [hq, List.length_cons]
                exact congrArg Nat.succ (ih ys zs (by simpa using h))
              · simp only [hq]
                exact ih ys zs (by simpa using h)

/-- A list of length `n` is the map of its `getD` accessor over
`List.range n`. -/
theorem eq_map_range_getD (d0 : α) :
    ∀ (b : List α) (n : ℕ), b.length = n →
      b = (List.range n).map (fun i => b.getD i d0) := by
  intro b
  induction b with
  | nil => intro n h; subst h; rfl
  | cons x xs ih =>
      intro n h
      cases n with
      | zero => simp at h
      | succ k =>
          rw [List.range_succ_eq_map]
          simp only [List.map_cons, List.map_map]
          refine congrArg₂ List.cons rfl ?_
          have hx := ih k (by simpa using h)
          conv_lhs => rw [hx]
          apply List.map_congr_left
          intro i hi
          simp [List.getD_cons_succ]

/-- Length of a flatMap whose pieces all have length `c`. -/
theorem flatMap_const_length (f : α → List β) (c : ℕ) :
    ∀ (l : List α), (∀ x ∈ l, (f x).length = c) →
      (l.flatMap f).length = l.length * c := by
  intro l
  induction l with
  | nil => intro _; simp
  | cons x xs ih =>
      intro h
      simp only [List.flatMap_cons, List.length_append, List.length_cons]
      rw [h x (by simp), ih (fun y hy => h y (by simp [hy]))]
      ring

/-- Dropping `c * a` elements of a flatMap with uniform piece length `c`
drops `a` whole pieces. -/
theorem flatMap_drop_uniform (f : α → List β) (c : ℕ) :
    ∀ (l : List α) (a : ℕ), (∀ x ∈ l, (f x).length = c) →
      (l.flatMap f).drop (c * a) = (l.drop a).flatMap f := by
  intro l
  induction l with
  | nil => intro a _; simp
  | cons x xs ih =>
      intro a h
      cases a with
      | zero => simp
      | succ b =>
          simp only [List.flatMap_cons]
          have hm : c * (b + 1) = (f x).length + c * b := by
            rw [h x (by simp)]; ring
          rw [hm, List.drop_append]
          exact ih b (fun y hy => h y (by simp [hy]))

/-- Taking `c * a` elements of a flatMap with uniform piece length `c`
takes `a` whole pieces. -/
theorem flatMap_take_uniform (f : α → List β) (c : ℕ) :
    ∀ (l : List α) (a : ℕ), (∀ x ∈ l, (f x).length = c) →
      (l.flatMap f).take (c * a) = (l.take a).flatMap f := by
  intro l
  induction l with
  | nil => intro a _; simp
  | cons x xs ih =>
      intro a h
      cases a with
      | zero => simp
      | succ b =>
          simp only [List.flatMap_cons]
          have hm : c * (b + 1) = (f x).length + c * b := by
            rw [h x (by simp)]; ring
          rw [hm, List.take_append]
          exact congrArg (f x ++ ·) (ih b (fun y hy => h y (by simp [hy])))

end ListHelpers

section Rounding

/-- At a tie (fractional part exactly one half), `pyRound` is at distance
exactly one half. -/
theorem abs_sub_pyRound_of_fract_eq (q : ℚ) (hf : Int.fract q = 1/2) :
    |q - (pyRound q : ℚ)| = 1/2 := by
  have hq : q - (⌊q⌋ : ℚ) = 1/2 := by rw [Int.self_sub_floor]; exact hf
  unfold pyRound
  rw [if_pos hf]
  by_cases he : Even ⌊q⌋
  · rw [if_pos he, hq]
    norm_num
  · rw [if_neg he]
    have h2 : q - ((⌊q⌋ + 1 : ℤ) : ℚ) = -(1/2) := by push_cast; linarith
    rw [h2]
    norm_num

/-- Away from a tie, `pyRound` agrees with `round` and is at distance
strictly less than one half. -/
theorem abs_sub_pyRound_of_fract_ne (q : ℚ) (hf : Int.fract q ≠ 1/2) :
    pyRound q = round q ∧ |q - (pyRound q : ℚ)| < 1/2 := by
  have hpr : pyRound q = round q := by unfold pyRound; rw [if_neg hf]
  refine ⟨hpr, ?_⟩
  rw [hpr, abs_sub_round_eq_min]
  rcases lt_or_gt_of_ne hf with h | h
  · calc min (Int.fract q) (1 - Int.fract q) ≤ Int.fract q := min_le_left _ _
      _ < 1/2 := h
  · calc min (Int.fract q) (1 - Int.fract q) ≤ 1 - Int.fract q := min_le_right _ _
      _ < 1/2 := by linarith

/-- The modelled Python `round` is a round-half-to-even rounding: it is
within one half of its argument, and at an exact tie it returns an even
integer. -/
theorem pyRound_props (q : ℚ) :
    |q - (pyRound q : ℚ)| ≤ 1/2 ∧ (|q - (pyRound q : ℚ)| = 1/2 → Even (pyRound q)) := by
  by_cases hf : Int.fract q = 1/2
  · refine ⟨(abs_sub_pyRound_of_fract_eq q hf).le, fun _ => ?_⟩
    unfold pyRound
    rw [if_pos hf]
    by_cases he : Even ⌊q⌋
    · rw [if_pos he]; exact he
    · rw [if_neg he]; exact Int.even_add_one.mpr he
  · obtain ⟨_, hlt⟩ := abs_sub_pyRound_of_fract_ne q hf
    exact ⟨hlt.le, fun hc => absurd hc (ne_of_lt hlt)⟩

/-- The source `py3round` computes exactly the round-half-to-even rounding
`pyRound`: its tie detection fires precisely at fractional part one half,
and `2 * round(q / 2)` is then the even one of the two nearest integers. -/
theorem py3round_eq_pyRound (q : ℚ) : py3round q = pyRound q := by
  by_cases hf : Int.fract q = 1/2
  · have hcond : |(pyRound q : ℚ) - q| = 1/2 := by
      rw [abs_sub_comm]; exact abs_sub_pyRound_of_fract_eq q hf
    unfold py3round
    rw [if_pos hcond]
    have hsub : q - (⌊q⌋ : ℚ) = 1/2 := by rw [Int.self_sub_floor]; exact hf
    have hq : q = (⌊q⌋ : ℚ) + 1/2 := by linarith
    rcases Int.even_or_odd ⌊q⌋ with he | ho
    · obtain ⟨m, hm⟩ := he
      have hq2 : q / 2 = (m : ℚ) + 1/4 := by
        rw [hq, hm]; push_cast; ring
      have hfr : Int.fract (q/2) = 1/4 := by
        rw [hq2, Int.fract_int_add, Int.fract_eq_self.mpr (by norm_num)]
      have hhalf : pyRound (q/2) = m := by
        unfold pyRound
        rw [if_neg (by rw [hfr]; norm_num), hq2, round_int_add]
        norm_num [round_eq]
      rw [hhalf]
      unfold pyRound
      rw [if_pos hf, if_pos ⟨m, hm⟩, hm]
      ring
    · obtain ⟨m, hm⟩ := ho
      have hq2 : q / 2 = (m : ℚ) + 3/4 := by
        rw [hq, hm]; push_cast; ring
      have hfr : Int.fract (q/2) = 3/4 := by
        rw [hq2, Int.fract_int_add, Int.fract_eq_self.mpr (by norm_num)]
      have hhalf : pyRound (q/2) = m + 1 := by
        unfold pyRound
        rw [if_neg (by rw [hfr]; norm_num), hq2, round_int_add]
        norm_num [round_eq]
      rw [hhalf]
      have hne : ¬ Even ⌊q⌋ := by
        rw [hm]
        rw [Int.even_add_one]
        simp [Int.even_mul]
      unfold pyRound
      rw [if_pos hf, if_neg hne, hm]
      ring
  · obtain ⟨hpr, hlt⟩ := abs_sub_pyRound_of_fract_ne q hf
    have hcond : ¬ |(pyRound q : ℚ) - q| = 1/2 := by
      rw [abs_sub_comm]; exact ne_of_lt hlt
    unfold py3round
    rw [if_neg hcond]

end Rounding

/-- The region check returns either `1` or `0`. -/
theorem check_kps_coords_cases (p : ℚ × ℚ) (h w : ℤ) :
    _check_kps_coords p h w = 1 ∨ _check_kps_coords p h w = 0 := by
  unfold _check_kps_coords
  split
  all_goals dsimp only
  all_goals split
  all_goals first
    | exact Or.inl rfl
    | exact Or.inr rfl

/-- C4: `filter_boxes` clips only the padded axis.  When `w >= h` it returns
`(x1, max(y1, pad), x2, min(y2, w - pad))` with `pad = (w - h) // 2`,
leaving `x` untouched; when `h > w` it clips only `x` to `[pad, h - pad]`
with `pad = (h - w) // 2`, leaving `y` untouched; for a 300x500 content
region on a 500x500 canvas the `y` coordinates are clipped into
`[100, 400]`.  `filter_boxes` returns exactly one box for one input box and
drops none (it is a total function into a single 4-tuple by
construction). -/
theorem C4_filter_boxes_clips :
    (∀ (x1 y1 x2 y2 : ℚ) (h w : ℤ), h ≤ w →
      filter_boxes (x1, y1, x2, y2) h w =
        (x1, max y1 (((w - h).fdiv 2 : ℤ) : ℚ), x2,
         min y2 (((w - (w - h).fdiv 2 : ℤ) : ℤ) : ℚ))) ∧
    (∀ (x1 y1 x2 y2 : ℚ) (h w : ℤ), w < h →
      filter_boxes (x1, y1, x2, y2) h w =
        (max x1 (((h - w).fdiv 2 : ℤ) : ℚ), y1,
         min x2 (((h - (h - w).fdiv 2 : ℤ) : ℤ) : ℚ), y2)) ∧
    filter_boxes (50, 50, 450, 450) 300 500 = (50, 100, 450, 400) := by
  refine ⟨?_, ?_, ?_⟩
  · intro x1 y1 x2 y2 h w hw
    unfold filter_boxes
    rw [if_pos (by exact hw)]
  · intro x1 y1 x2 y2 h w hw
    unfold filter_boxes
    rw [if_neg (by omega)]
  · decide

/-- C4 witness: the general clipping law applied to the concrete box
`(0, 150, 5, 450)` against the 300x500 content region. -/
theorem C4_filter_boxes_clips_witness :
    filter_boxes ((0 : ℚ), 150, 5, 450) 300 500 =
      (0, max 150 ((((500 - 300 : ℤ)).fdiv 2 : ℤ) : ℚ), 5,
       min 450 ((((500 - (500 - 300 : ℤ).fdiv 2 : ℤ)) : ℤ) : ℚ)) :=
  C4_filter_boxes_clips.1 0 150 5 450 300 500 (by decide)

/-- C5 counterexample: the claim says a point with NONZERO incoming
visibility outside the content region comes out as `(0, 0, 0)`, but the
source only treats POSITIVE visibility that way (`if v[i] > 0`): with
incoming visibility `-1` (nonzero) and a point outside the region, the
point is returned unchanged with its visibility intact, not `(0, 0, 0)`. -/
theorem C5_filter_keypoints_counterexample :
    ((-1 : ℚ) ≠ 0) ∧
    _check_kps_coords ((-5 : ℚ), (-5 : ℚ)) 300 500 = 0 ∧
    filter_keypoints [((-5 : ℚ), (-5 : ℚ))] 300 500 [(-1 : ℚ)] =
      [((-5 : ℚ), (-5 : ℚ), (-1 : ℚ))] ∧
    filter_keypoints [((-5 : ℚ), (-5 : ℚ))] 300 500 [(-1 : ℚ)] ≠
      [((0 : ℚ), (0 : ℚ), (0 : ℚ))] := by
  refine ⟨by norm_num, by decide, by decide, by decide⟩

/-- C5 (amended: positive instead of nonzero incoming visibility):
`filter_keypoints` returns a same-length list of `(x, y, visibility)`
triples; a point with incoming visibility `0` stays at visibility `0`, and
a point with positive incoming visibility keeps its original visibility
value if it lies inside the centered-pad content region
(`_check_kps_coords` yields `1`) and otherwise gets visibility `0` with its
coordinates forced to `(0, 0)`. -/
theorem C5_filter_keypoints_amended (pts : List (ℚ × ℚ)) (h w : ℤ) (v : List ℚ)
    (hlen : pts.length = v.length) :
    (filter_keypoints pts h w v).length = pts.length ∧
    ∀ (i : ℕ) (h1 : i < pts.length) (h2 : i < v.length)
      (h3 : i < (filter_keypoints pts h w v).length),
      (v[i] = 0 → ((filter_keypoints pts h w v)[i]).2.2 = 0) ∧
      (0 < v[i] →
        (filter_keypoints pts h w v)[i] =
          (if _check_kps_coords pts[i] h w = 1
           then (pts[i].1, pts[i].2, v[i])
           else ((0 : ℚ), (0 : ℚ), (0 : ℚ)))) := by
  constructor
  · unfold filter_keypoints
    rw [List.length_map, List.length_zip, hlen, min_self, ← hlen]
  · intro i h1 h2 h3
    have hget : (filter_keypoints pts h w v)[i] =
        (fun pv : (ℚ × ℚ) × ℚ =>
          let vn : ℚ :=
            if 0 < pv.2 then
              (let c := _check_kps_coords pv.1 h w; if c = 1 then pv.2 else c)
            else pv.2
          if vn = 0 then ((0 : ℚ), (0 : ℚ), (0 : ℚ)) else (pv.1.1, pv.1.2, vn))
          (pts[i], v[i]) := by
      unfold filter_keypoints
      rw [List.getElem_map, List.getElem_zip]
    constructor
    · intro hv0
      rw [hget]
      simp [hv0]
    · intro hvpos
      rcases check_kps_coords_cases pts[i] h w with hc | hc
      · rw [hget, if_pos hc]
        dsimp only
        rw [if_pos hvpos, hc, if_pos rfl, if_neg (ne_of_gt hvpos)]
      · rw [hget, if_neg (by rw [hc]; norm_num)]
        dsimp only
        rw [if_pos hvpos, hc]
        norm_num

/-- C5 witness: the amended law at the in-region point `(5, 150)` with
incoming visibility `2` on the 300x500 content region. -/
theorem C5_filter_keypoints_amended_witness :
    (filter_keypoints [((5 : ℚ), 150)] 300 500 [(2 : ℚ)]).length = 1 ∧
    (filter_keypoints [((5 : ℚ), 150)] 300 500 [(2 : ℚ)]).get ⟨0, by decide⟩ =
      (if _check_kps_coords ((5 : ℚ), 150) 300 500 = 1
       then ((5 : ℚ), (150 : ℚ), (2 : ℚ))
       else ((0 : ℚ), (0 : ℚ), (0 : ℚ))) := by
  obtain ⟨hl, hp⟩ := C5_filter_keypoints_amended [((5 : ℚ), 150)] 300 500 [(2 : ℚ)] (by decide)
  exact ⟨hl, (hp 0 (by decide) (by decide) (by decide)).2 (by decide)⟩

/-- C6: `_func_max_size` scales both dimensions by
`scale = max_size / func(width, height)` with each product rounded
half-to-even and cast to int when `scale != 1.0`, returns the dimensions
exactly unchanged when `scale == 1.0` (in particular when `max_size` equals
the selected side), `py3round` rounds an exact `x.5` to the nearest even
integer (`3.5` to `4`, `2.5` to `2`; the characterization states it is
within one half and even at ties), and the result is deterministic for
identical inputs (it is a pure function of them). -/
theorem C6_func_max_size_round_half_even :
    (∀ (height width max_size : ℤ) (func : ℤ → ℤ → ℤ),
      (max_size : ℚ) / ((func width height : ℤ) : ℚ) ≠ 1 →
        _func_max_size height width max_size func =
          (py3round ((height : ℚ) * ((max_size : ℚ) / ((func width height : ℤ) : ℚ))),
           py3round ((width : ℚ) * ((max_size : ℚ) / ((func width height : ℤ) : ℚ))))) ∧
    (∀ (height width max_size : ℤ) (func : ℤ → ℤ → ℤ),
      0 < func width height → max_size ≠ func width height →
        _func_max_size height width max_size func =
          (py3round ((height : ℚ) * ((max_size : ℚ) / ((func width height : ℤ) : ℚ))),
           py3round ((width : ℚ) * ((max_size : ℚ) / ((func width height : ℤ) : ℚ))))) ∧
    (∀ (height width max_size : ℤ) (func : ℤ → ℤ → ℤ),
      (max_size : ℚ) / ((func width height : ℤ) : ℚ) = 1 →
        _func_max_size height width max_size func = (height, width)) ∧
    (∀ (height width max_size : ℤ) (func : ℤ → ℤ → ℤ),
      func width height = max_size → max_size ≠ 0 →
        _func_max_size height width max_size func = (height, width)) ∧
    (∀ q : ℚ, |q - (py3round q : ℚ)| ≤ 1/2 ∧
      (|q - (py3round q : ℚ)| = 1/2 → Even (py3round q))) ∧
    py3round (7/2) = 4 ∧ py3round (5/2) = 2 := by
  have hscaled : ∀ (height width max_size : ℤ) (func : ℤ → ℤ → ℤ),
      (max_size : ℚ) / ((func width height : ℤ) : ℚ) ≠ 1 →
        _func_max_size height width max_size func =
          (py3round ((height : ℚ) * ((max_size : ℚ) / ((func width height : ℤ) : ℚ))),
           py3round ((width : ℚ) * ((max_size : ℚ) / ((func width height : ℤ) : ℚ)))) := by
    intro height width max_size func hs
    unfold _func_max_size
    rw [if_pos hs]
  have hsame : ∀ (height width max_size : ℤ) (func : ℤ → ℤ → ℤ),
      (max_size : ℚ) / ((func width height : ℤ) : ℚ) = 1 →
        _func_max_size height width max_size func = (height, width) := by
    intro height width max_size func hs
    unfold _func_max_size
    rw [if_neg (by simpa using hs)]
  refine ⟨hscaled, ?_, hsame, ?_, ?_, ?_, ?_⟩
  · intro height width max_size func hpos hne
    refine hscaled height width max_size func (fun hcontra => hne ?_)
    rw [div_eq_iff (by exact_mod_cast hpos.ne.symm : ((func width height : ℤ) : ℚ) ≠ 0),
      one_mul] at hcontra
    exact_mod_cast hcontra
  · intro height width max_size func heq hne
    refine hsame height width max_size func ?_
    rw [heq]
    exact div_self (by exact_mod_cast hne)
  · intro q
    rw [py3round_eq_pyRound]
    exact pyRound_props q
  · have h3 : ⌊(7/2 : ℚ)⌋ = 3 := by norm_num
    rw [py3round_eq_pyRound]
    unfold pyRound
    rw [if_pos (by norm_num [Int.fract]), h3, if_neg (by decide)]
    decide
  · have h2 : ⌊(5/2 : ℚ)⌋ = 2 := by norm_num
    rw [py3round_eq_pyRound]
    unfold pyRound
    rw [if_pos (by norm_num [Int.fract]), h2, if_pos (by decide)]

/-- C6 witness: scaling a 3x6 image so that the longer side becomes 7
(`scale = 7/6 != 1`) takes the scaled-and-rounded branch. -/
theorem C6_func_max_size_witness :
    _func_max_size 3 6 7 (fun a b => max a b) =
      (py3round ((3 : ℚ) * ((7 : ℚ) / (((fun a b => max a b) (6 : ℤ) (3 : ℤ) : ℤ) : ℚ))),
       py3round ((6 : ℚ) * ((7 : ℚ) / (((fun a b => max a b) (6 : ℤ) (3 : ℤ) : ℤ) : ℚ)))) :=
  C6_func_max_size_round_half_even.2.1 3 6 7 (fun a b => max a b) (by decide) (by decide)

/-- Filtering the `None` entries out of an optional-transform list proceeds
headwise. -/
theorem filterMap_id_cons (o : Option ATransform) (rest : List (Option ATransform)) :
    (o :: rest).filterMap id = o.toList ++ rest.filterMap id := by
  cases o <;> simp

/-- C9: `aug_tfms` returns exactly the fixed order presize, horizontal
flip, shift/scale/rotate, rgb shift, brightness/contrast, blur, then either
a `OneOrOther` of the built crop and the resize-to-size whose probability is
the built crop operation's own `p` (or the plain resize when `crop_fn` is
`None`), then the pad strictly last; every step passed as `None` contributes
nothing to the returned list. -/
theorem C9_aug_tfms_order :
    ∀ (size : PySize) (presize : Option PySize)
      (hf ssr rgb light blr : Option ATransform)
      (pad : Option (ℤ → ℤ → ATransform)),
      (∀ cf : ℤ → ℤ → ATransform,
        aug_tfms size presize hf ssr rgb light blr (some cf) pad =
          (presize.map (fun ps => _resize ps ATransform.smallestMaxSize)).toList ++
          hf.toList ++ ssr.toList ++ rgb.toList ++ light.toList ++ blr.toList ++
          [ATransform.oneOrOther (cf (sizeHW size).1 (sizeHW size).2)
            (_resize size ATransform.longestMaxSize)
            ((cf (sizeHW size).1 (sizeHW size).2).p)] ++
          (pad.map (fun pf => pf (sizeHW size).1 (sizeHW size).2)).toList) ∧
      aug_tfms size presize hf ssr rgb light blr none pad =
          (presize.map (fun ps => _resize ps ATransform.smallestMaxSize)).toList ++
          hf.toList ++ ssr.toList ++ rgb.toList ++ light.toList ++ blr.toList ++
          [_resize size ATransform.longestMaxSize] ++
          (pad.map (fun pf => pf (sizeHW size).1 (sizeHW size).2)).toList := by
  intro size presize hf ssr rgb light blr pad
  constructor
  · intro cf
    unfold aug_tfms
    dsimp only
    simp only [List.filterMap_append, filterMap_id_cons, List.filterMap_nil, List.append_nil,
      List.append_assoc]
    simp
  · unfold aug_tfms
    dsimp only
    simp only [List.filterMap_append, filterMap_id_cons, List.filterMap_nil, List.append_nil,
      List.append_assoc]
    simp

/-- C2: when the pipeline contains a `OneOrOther` step and keypoints are
supplied, `apply` raises the ConfigurationError before the pipeline
executes: the result is the error for EVERY pipeline outcome `d` (so no
image processing influences it), the error is returned to the caller, and
the processor registry is left untouched. -/
theorem C2_crop_keypoint_exclusion (tfms_list : List ATransform) (img : Image)
    (labels : Option (List ℤ)) (bboxes : Option (List BBox)) (masks : Option MaskArray)
    (iscrowds : Option (List ℤ)) (kps : List KeyPoints) (procs : Procs) (d : DOut)
    (hone : (get_transform tfms_list nameOneOrOther).isSome = true) :
    apply tfms_list img labels bboxes masks iscrowds (some kps) procs d =
      (.error .configurationError, procs) := by
  unfold apply applyPre
  dsimp only
  rw [if_pos hone]

/-- C2 witness: a pipeline holding the randomized crop-or-resize choice,
applied with one keypoint instance. -/
theorem C2_crop_keypoint_exclusion_witness :
    apply [ATransform.oneOrOther (ATransform.randomSizedBBoxSafeCrop 100 100 (1/2))
        (ATransform.longestMaxSize 100) (1/2)] ⟨2, 2⟩ none none none none
      (some [⟨[1, 1, 1], [0]⟩]) Adapter.initProcs ⟨⟨2, 2⟩, [], [], [], []⟩ =
      (.error .configurationError, Adapter.initProcs) :=
  C2_crop_keypoint_exclusion _ _ _ _ _ _ _ _ _ (by decide)

/-- C8 counterexample: the processor registry is NOT identical before and
after every `apply` call: one call without bboxes and without keypoints
pops both processors from the shared registry (tfms.py lines 151-154
mutate `self.tfms.processors` in place). -/
theorem C8_no_shared_mutation_counterexample :
    (apply [] ⟨4, 4⟩ none none none none none Adapter.initProcs
      ⟨⟨4, 4⟩, [], [], [], []⟩).2 ≠ Adapter.initProcs ∧
    (apply [] ⟨4, 4⟩ (some [1]) none (some ⟨[]⟩) (some [0]) none Adapter.initProcs
      ⟨⟨4, 4⟩, [], [], [], []⟩).2.bboxes = false := by
  constructor
  · decide
  · decide

/-- C8 (amended): `apply` does mutate the Adapter's shared state.  A call
without bboxes and without keypoints leaves the processor registry with
both processors removed, and the removal is permanent: once the bboxes
processor is absent, every later call (including one that supplies bboxes)
still ends with it absent. -/
theorem C8_processors_mutation_amended :
    (∀ (tfms : List ATransform) (img : Image) (labels : Option (List ℤ))
       (masks : Option MaskArray) (iscrowds : Option (List ℤ)) (procs : Procs) (d : DOut),
       (apply tfms img labels none masks iscrowds none procs d).2 = ⟨false, false⟩) ∧
    (∀ (tfms : List ATransform) (img : Image) (labels : Option (List ℤ))
       (bboxes : Option (List BBox)) (masks : Option MaskArray) (iscrowds : Option (List ℤ))
       (keypoints : Option (List KeyPoints)) (procs : Procs) (d : DOut),
       procs.bboxes = false →
       (apply tfms img labels bboxes masks iscrowds keypoints procs d).2.bboxes = false) := by
  constructor
  · intro tfms img labels masks iscrowds procs d
    unfold apply applyPre
    simp
  · intro tfms img labels bboxes masks iscrowds keypoints procs d hfalse
    unfold apply
    cases happ : applyPre tfms keypoints with
    | error e => simpa using hfalse
    | ok u => simp [hfalse]

/-- C8 witness: starting from a registry whose bboxes processor was already
popped, a call that does supply bboxes still ends without it. -/
theorem C8_processors_mutation_witness :
    (apply [] ⟨4, 4⟩ none (some [⟨0, 0, 1, 1⟩]) none none none ⟨false, true⟩
      ⟨⟨4, 4⟩, [], [], [], []⟩).2.bboxes = false :=
  C8_processors_mutation_amended.2 [] ⟨4, 4⟩ none (some [⟨0, 0, 1, 1⟩]) none none none
    ⟨false, true⟩ ⟨⟨4, 4⟩, [], [], [], []⟩ (by decide)

/-- With keypoint chunks available, `buildOut` never fails and its output is
given in closed form; all boxes are clipped against `contentBasis` (the
re-derived content size when a pad step is present, else the transformed
image shape). -/
theorem buildOut_some_eq (tfms_list : List ATransform) (img : Image)
    (labels : Option (List ℤ)) (bboxes : Option (List BBox)) (masks : Option MaskArray)
    (iscrowds : Option (List ℤ)) (chunks : List (List ℚ)) (cl : List ℤ) (d : DOut) :
    buildOut tfms_list img labels bboxes masks iscrowds (some chunks) cl d =
      .ok ⟨d.image, d.image.height, d.image.width,
        labels.map (fun L =>
          ((d.labels.zip chunks).filter (fun pr => 0 < pr.2.sum)).map (fun pr => L.getD pr.1 0)),
        bboxes.map (fun _B =>
          (((d.bboxes.map (fun xyxy =>
              filter_boxes xyxy (contentBasis tfms_list img d).1
                (contentBasis tfms_list img d).2)).zip chunks).filter
            (fun pr => 0 < pr.2.sum)).map (fun pr => BBox.from_xyxy pr.1)),
        masks.map (fun _M =>
          ⟨((d.labels.zip chunks).filter (fun pr => 0 < pr.2.sum)).map
            (fun pr => d.masks.getD pr.1 0)⟩),
        iscrowds.map (fun IC =>
          ((d.labels.zip chunks).filter (fun pr => 0 < pr.2.sum)).map (fun pr => IC.getD pr.1 0)),
        some ((chunks.filter (fun kk => 0 < kk.sum)).map (fun kk => KeyPoints.from_xyv kk cl))⟩ := by
  have hcb1 : (get_transform tfms_list namePad).isSome = true →
      contentBasis tfms_list img d = contentSize tfms_list img := fun h => by
    unfold contentBasis; rw [if_pos h]
  have hcb2 : ¬((get_transform tfms_list namePad).isSome = true) →
      contentBasis tfms_list img d = ((d.image.height : ℤ), (d.image.width : ℤ)) := fun h => by
    unfold contentBasis; rw [if_neg h]
  cases bboxes with
  | none =>
      unfold buildOut
      rfl
  | some B =>
      unfold buildOut
      dsimp only
      by_cases hpad : (get_transform tfms_list namePad).isSome
      · rw [hcb1 hpad]
        simp only [if_pos hpad]
        rfl
      · rw [hcb2 hpad]
        simp only [if_neg hpad]
        rfl

/-- Without keypoints, a successful `buildOut` reconstructs every requested
field from the pipeline survivor indices, and the boxes are exactly one
clipped box per pipeline box (against some content basis). -/
theorem buildOut_none_ok (tfms_list : List ATransform) (img : Image)
    (labels : Option (List ℤ)) (bboxes : Option (List BBox)) (masks : Option MaskArray)
    (iscrowds : Option (List ℤ)) (d : DOut) (out : Out)
    (h : buildOut tfms_list img labels bboxes masks iscrowds none [] d = .ok out) :
    out.img = d.image ∧ out.height = d.image.height ∧ out.width = d.image.width ∧
    out.labels = labels.map (fun L => d.labels.map (fun i => L.getD i 0)) ∧
    out.masks = masks.map (fun _M => ⟨d.labels.map (fun i => d.masks.getD i 0)⟩) ∧
    out.iscrowds = iscrowds.map (fun IC => d.labels.map (fun i => IC.getD i 0)) ∧
    out.keypoints = none ∧
    ∃ hh ww : ℤ, out.bboxes = bboxes.map (fun _B =>
      d.bboxes.map (fun xyxy => BBox.from_xyxy (filter_boxes xyxy hh ww))) := by
  cases bboxes with
  | none =>
      unfold buildOut at h
      rw [Except.ok.injEq] at h
      subst h
      refine ⟨rfl, rfl, rfl, rfl, rfl, rfl, rfl, 0, 0, rfl⟩
  | some B =>
      unfold buildOut at h
      dsimp only at h
      by_cases hpad : (get_transform tfms_list namePad).isSome
      · simp only [if_pos hpad] at h
        by_cases hemp : d.bboxes.isEmpty
        · simp only [if_pos hemp] at h
          rw [Except.ok.injEq] at h
          subst h
          refine ⟨rfl, rfl, rfl, rfl, rfl, rfl, rfl, 0, 0, ?_⟩
          rw [List.isEmpty_iff] at hemp
          rw [hemp]
          rfl
        · simp only [if_neg hemp] at h
          exact Except.noConfusion h
      · simp only [if_neg hpad] at h
        rw [Except.ok.injEq] at h
        subst h
        refine ⟨rfl, rfl, rfl, rfl, rfl, rfl, rfl, d.image.height, d.image.width, ?_⟩
        simp [List.map_map]

/-- C1: whenever labels, bboxes, masks and iscrowds are all supplied (with
or without keypoints) and `apply` returns a record, the four returned
fields have equal lengths.  The single pipeline contract used is that the
pipeline keeps its box list aligned with the surviving identity-label list
(`d.labels.length = d.bboxes.length`, which albumentations guarantees via
`label_fields`). -/
theorem C1_cardinality (tfms_list : List ATransform) (img : Image)
    (L : List ℤ) (B : List BBox) (M : MaskArray) (IC : List ℤ)
    (kp : Option (List KeyPoints)) (procs : Procs) (d : DOut) (out : Out)
    (hlen : d.labels.length = d.bboxes.length)
    (h : (apply tfms_list img (some L) (some B) (some M) (some IC) kp procs d).1 = .ok out) :
    ∃ ol ob om oc, out.labels = some ol ∧ out.bboxes = some ob ∧
      out.masks = some (MaskArray.mk om) ∧ out.iscrowds = some oc ∧
      ol.length = ob.length ∧ ob.length = om.length ∧ om.length = oc.length := by
  cases kp with
  | none =>
      have hb : buildOut tfms_list img (some L) (some B) (some M) (some IC) none [] d =
          .ok out := h
      obtain ⟨_, _, _, hL, hM, hI, _, hh, ww, hB⟩ :=
        buildOut_none_ok tfms_list img (some L) (some B) (some M) (some IC) d out hb
      refine ⟨_, _, _, _, by simpa using hL, by simpa using hB, by simpa using hM,
        by simpa using hI, ?_, ?_, ?_⟩
      · simp only [List.length_map]; omega
      · simp only [List.length_map]; omega
      · simp only [List.length_map]
  | some kps =>
      unfold apply at h
      cases happ : applyPre tfms_list (some kps) with
      | error e => rw [happ] at h; exact Except.noConfusion h
      | ok u =>
          rw [happ] at h
          dsimp only at h
          unfold applyCore at h
          dsimp only at h
          cases hkst : kpStage tfms_list img kps d with
          | error e => rw [hkst] at h; exact Except.noConfusion h
          | ok chunks =>
              rw [hkst] at h
              dsimp only at h
              rw [buildOut_some_eq, Except.ok.injEq] at h
              subst h
              dsimp only
              refine ⟨_, _, _, _, rfl, rfl, rfl, rfl, ?_, ?_, ?_⟩
              · rw [List.length_map, List.length_map]
                apply zip_filter_snd_length (fun l => 0 < l.sum)
                rw [List.length_map, hlen]
              · rw [List.length_map, List.length_map]
                apply zip_filter_snd_length (fun l => 0 < l.sum)
                rw [List.length_map, hlen]
              · simp only [List.length_map]

/-- C1 witness: a full one-instance sample through the empty pipeline. -/
theorem C1_cardinality_witness :
    ∃ ol ob om oc,
      (⟨⟨4, 4⟩, 4, 4, some [7], some [⟨0, 0, 1, 1⟩], some ⟨[5]⟩, some [1], none⟩ : Out).labels =
        some ol ∧
      (⟨⟨4, 4⟩, 4, 4, some [7], some [⟨0, 0, 1, 1⟩], some ⟨[5]⟩, some [1], none⟩ : Out).bboxes =
        some ob ∧
      (⟨⟨4, 4⟩, 4, 4, some [7], some [⟨0, 0, 1, 1⟩], some ⟨[5]⟩, some [1], none⟩ : Out).masks =
        some (MaskArray.mk om) ∧
      (⟨⟨4, 4⟩, 4, 4, some [7], some [⟨0, 0, 1, 1⟩], some ⟨[5]⟩, some [1], none⟩ : Out).iscrowds =
        some oc ∧
      ol.length = ob.length ∧ ob.length = om.length ∧ om.length = oc.length :=
  C1_cardinality [] ⟨4, 4⟩ [7] [⟨0, 0, 1, 1⟩] ⟨[5]⟩ [1] none ⟨true, true⟩
    ⟨⟨4, 4⟩, [0], [(0, 0, 1, 1)], [5], []⟩
    ⟨⟨4, 4⟩, 4, 4, some [7], some [⟨0, 0, 1, 1⟩], some ⟨[5]⟩, some [1], none⟩
    (by decide) (by decide)

/-- C10: with keypoints absent, a successful `apply` never drops a box
during reconstruction: the returned bboxes are exactly one clipped box per
pipeline box, in order.  And the clipping can produce a degenerate box: on
a 300x500 output with no pad step, `filter_boxes` believes the content
region is `y ∈ [100, 400]`, so the box `(10, 10, 20, 50)` lying entirely in
the computed padding band returns as `(10, 100, 20, 50)` with `y1 >= y2`,
violating the `y1 < y2` box well-formedness of the sample data model. -/
theorem C10_no_bbox_drop_degenerate :
    (∀ (tfms_list : List ATransform) (img : Image) (labels : Option (List ℤ)) (B : List BBox)
       (masks : Option MaskArray) (iscrowds : Option (List ℤ)) (procs : Procs) (d : DOut)
       (out : Out),
       (apply tfms_list img labels (some B) masks iscrowds none procs d).1 = .ok out →
       ∃ hh ww : ℤ, out.bboxes =
         some (d.bboxes.map (fun xyxy => BBox.from_xyxy (filter_boxes xyxy hh ww)))) ∧
    ((apply [] ⟨300, 500⟩ none (some [⟨0, 0, 1, 1⟩]) none none none ⟨true, true⟩
        ⟨⟨300, 500⟩, [0], [(10, 10, 20, 50)], [], []⟩).1 =
      .ok ⟨⟨300, 500⟩, 300, 500, none, some [⟨10, 100, 20, 50⟩], none, none, none⟩ ∧
      (BBox.mk 10 100 20 50).y2 ≤ (BBox.mk 10 100 20 50).y1) := by
  constructor
  · intro tfms_list img labels B masks iscrowds procs d out h
    have hb : buildOut tfms_list img labels (some B) masks iscrowds none [] d = .ok out := h
    obtain ⟨_, _, _, _, _, _, _, hh, ww, hB⟩ :=
      buildOut_none_ok tfms_list img labels (some B) masks iscrowds d out hb
    exact ⟨hh, ww, by simpa using hB⟩
  · exact ⟨by decide, by decide⟩

/-- C10 witness: the no-drop law applied at the degenerate concrete run. -/
theorem C10_no_bbox_drop_degenerate_witness :
    ∃ hh ww : ℤ,
      (⟨⟨300, 500⟩, 300, 500, none, some [⟨10, 100, 20, 50⟩], none, none, none⟩ : Out).bboxes =
        some ([((10 : ℚ), (10 : ℚ), (20 : ℚ), (50 : ℚ))].map
          (fun xyxy => BBox.from_xyxy (filter_boxes xyxy hh ww))) :=
  C10_no_bbox_drop_degenerate.1 [] ⟨300, 500⟩ none [⟨0, 0, 1, 1⟩] none none ⟨true, true⟩
    ⟨⟨300, 500⟩, [0], [(10, 10, 20, 50)], [], []⟩
    ⟨⟨300, 500⟩, 300, 500, none, some [⟨10, 100, 20, 50⟩], none, none, none⟩ (by decide)

theorem toTriples_length : ∀ l : List ℚ, (toTriples l).length = l.length / 3
  | [] => by simp [toTriples]
  | [_] => by simp [toTriples]
  | [_, _] => by simp [toTriples]
  | x :: y :: vis :: rest => by
      have ih := toTriples_length rest
      simp only [toTriples, List.length_cons, ih]
      omega

theorem filter_keypoints_length (tk : List (ℚ × ℚ)) (h w : ℤ) (v : List ℚ) :
    (filter_keypoints tk h w v).length = min tk.length v.length := by
  unfold filter_keypoints
  rw [List.length_map, List.length_zip]

theorem pyRangeStep_exact (n step : ℕ) (hstep : 0 < step) :
    pyRangeStep 0 (n * step) step = (List.range n).map (fun j => step * j) := by
  unfold pyRangeStep
  have hcount : (n * step - 0 + step - 1) / step = n := by
    have h1 : n * step - 0 + step - 1 = (step - 1) + step * n := by
      rw [Nat.mul_comm]; omega
    rw [h1, Nat.add_mul_div_left _ _ hstep, Nat.div_eq_of_lt (by omega)]
    omega
  rw [hcount]
  apply List.map_congr_left
  intro j hj
  omega

theorem kpStage_uniform (tfms_list : List ATransform) (img : Image) (kps : List KeyPoints)
    (d : DOut) (n m : ℕ)
    (hn : kps.length = n) (hn0 : 0 < n) (hm0 : 0 < m)
    (hx : ∀ o ∈ kps, o.xyv.length = 3 * m)
    (hdk : d.keypoints.length = n * m) :
    kpStage tfms_list img kps d =
      .ok ((List.range n).map (fun j =>
        (((filter_keypoints d.keypoints (contentBasis tfms_list img d).1
            (contentBasis tfms_list img d).2
            (kps.flatMap KeyPoints.visible)).drop (m * j)).take m).flatMap
          tripleFlat)) := by
  have hxylen : (kps.flatMap KeyPoints.xy).length = n * m := by
    rw [flatMap_const_length KeyPoints.xy m kps ?_, hn]
    intro o ho
    unfold KeyPoints.xy
    rw [List.length_map, toTriples_length, hx o ho]
    omega
  have hvlen : (kps.flatMap KeyPoints.visible).length = n * m := by
    rw [flatMap_const_length KeyPoints.visible m kps ?_, hn]
    intro o ho
    unfold KeyPoints.visible
    rw [List.length_map, toTriples_length, hx o ho]
    omega
  unfold kpStage
  dsimp only
  rw [if_neg (by simp [hdk, hxylen])]
  set v := kps.flatMap KeyPoints.visible with hv
  set tra := filter_keypoints d.keypoints (contentBasis tfms_list img d).1
      (contentBasis tfms_list img d).2 v with htra
  have htralen : tra.length = n * m := by
    rw [htra, filter_keypoints_length, hdk, hvlen, min_self]
  set l0 := tra.flatMap tripleFlat with hl0
  have hl0len : l0.length = n * (3 * m) := by
    rw [hl0, flatMap_const_length tripleFlat 3 tra (fun x _ => rfl), htralen]
    ring
  rw [if_neg (by omega)]
  have hstep : l0.length / kps.length = 3 * m := by
    rw [hl0len, hn, Nat.mul_div_cancel_left _ hn0]
  rw [hstep]
  rw [if_neg (by omega)]
  rw [hl0len, pyRangeStep_exact n (3 * m) (by omega), List.map_map]
  rw [if_neg (by simp [hn])]
  rw [Except.ok.injEq]
  apply List.map_congr_left
  intro j hj
  show (l0.drop (3 * m * j)).take (3 * m) = ((tra.drop (m * j)).take m).flatMap tripleFlat
  rw [show 3 * m * j = 3 * (m * j) by ring, hl0,
    flatMap_drop_uniform tripleFlat 3 tra (m * j) (fun x _ => rfl),
    flatMap_take_uniform tripleFlat 3 (tra.drop (m * j)) m (fun x _ => rfl)]

theorem applyPre_uniform_ok (tfms_list : List ATransform) (kps : List KeyPoints) (n m : ℕ)
    (hone : (get_transform tfms_list nameOneOrOther).isSome = false)
    (hn : kps.length = n)
    (hx : ∀ o ∈ kps, o.xyv.length = 3 * m)
    (hcl : ∀ o ∈ kps, o.labels.length = m) :
    applyPre tfms_list (some kps) = .ok () := by
  have hxylen : (kps.flatMap KeyPoints.xy).length = n * m := by
    rw [flatMap_const_length KeyPoints.xy m kps ?_, hn]
    intro o ho
    unfold KeyPoints.xy
    rw [List.length_map, toTriples_length, hx o ho]
    omega
  have hvlen : (kps.flatMap KeyPoints.visible).length = n * m := by
    rw [flatMap_const_length KeyPoints.visible m kps ?_, hn]
    intro o ho
    unfold KeyPoints.visible
    rw [List.length_map, toTriples_length, hx o ho]
    omega
  have hclen : (kps.flatMap KeyPoints.labels).length = n * m := by
    rw [flatMap_const_length KeyPoints.labels m kps hcl, hn]
  simp only [applyPre]
  rw [if_neg (by simp [hone])]
  rw [if_pos ⟨by rw [hxylen, hclen], by rw [hclen, hvlen]⟩]

theorem apply_uniform_eq (tfms_list : List ATransform) (img : Image)
    (labels : Option (List ℤ)) (bboxes : Option (List BBox)) (masks : Option MaskArray)
    (iscrowds : Option (List ℤ)) (kps : List KeyPoints) (procs : Procs) (d : DOut) (n m : ℕ)
    (hone : (get_transform tfms_list nameOneOrOther).isSome = false)
    (hn : kps.length = n) (hn0 : 0 < n) (hm0 : 0 < m)
    (hx : ∀ o ∈ kps, o.xyv.length = 3 * m)
    (hcl : ∀ o ∈ kps, o.labels.length = m)
    (hdk : d.keypoints.length = n * m) :
    apply tfms_list img labels bboxes masks iscrowds (some kps) procs d =
      (.ok ⟨d.image, d.image.height, d.image.width,
        labels.map (fun L =>
          ((d.labels.zip ((List.range n).map (fun j =>
            (((filter_keypoints d.keypoints (contentBasis tfms_list img d).1
                (contentBasis tfms_list img d).2
                (kps.flatMap KeyPoints.visible)).drop (m * j)).take m).flatMap
              tripleFlat))).filter (fun pr => 0 < pr.2.sum)).map (fun pr => L.getD pr.1 0)),
        bboxes.map (fun _B =>
          (((d.bboxes.map (fun xyxy =>
              filter_boxes xyxy (contentBasis tfms_list img d).1
                (contentBasis tfms_list img d).2)).zip ((List.range n).map (fun j =>
            (((filter_keypoints d.keypoints (contentBasis tfms_list img d).1
                (contentBasis tfms_list img d).2
                (kps.flatMap KeyPoints.visible)).drop (m * j)).take m).flatMap
              tripleFlat))).filter
            (fun pr => 0 < pr.2.sum)).map (fun pr => BBox.from_xyxy pr.1)),
        masks.map (fun _M =>
          ⟨((d.labels.zip ((List.range n).map (fun j =>
            (((filter_keypoints d.keypoints (contentBasis tfms_list img d).1
                (contentBasis tfms_list img d).2
                (kps.flatMap KeyPoints.visible)).drop (m * j)).take m).flatMap
              tripleFlat))).filter (fun pr => 0 < pr.2.sum)).map
            (fun pr => d.masks.getD pr.1 0)⟩),
        iscrowds.map (fun IC =>
          ((d.labels.zip ((List.range n).map (fun j =>
            (((filter_keypoints d.keypoints (contentBasis tfms_list img d).1
                (contentBasis tfms_list img d).2
                (kps.flatMap KeyPoints.visible)).drop (m * j)).take m).flatMap
              tripleFlat))).filter (fun pr => 0 < pr.2.sum)).map (fun pr => IC.getD pr.1 0)),
        some ((((List.range n).map (fun j =>
            (((filter_keypoints d.keypoints (contentBasis tfms_list img d).1
                (contentBasis tfms_list img d).2
                (kps.flatMap KeyPoints.visible)).drop (m * j)).take m).flatMap
              tripleFlat)).filter (fun kk => 0 < kk.sum)).map
          (fun kk => KeyPoints.from_xyv kk (kps.headD ⟨[], []⟩).labels))⟩,
       ⟨procs.bboxes && bboxes.isSome, procs.keypoints⟩) := by
  unfold apply
  rw [applyPre_uniform_ok tfms_list kps n m hone hn hx hcl]
  dsimp only
  simp only [applyCore]
  rw [kpStage_uniform tfms_list img kps d n m hn hn0 hm0 hx hdk]
  dsimp only
  rw [buildOut_some_eq]
  simp

theorem map_filter_zip_maps {β γ : Type} (n : ℕ) (bfun : ℕ → β) (G : ℕ → List ℚ) (f : β → γ) :
    ((((List.range n).map bfun).zip ((List.range n).map G)).filter
      (fun pr => 0 < pr.2.sum)).map (fun pr => f pr.1) =
      ((List.range n).filter (fun j => 0 < (G j).sum)).map (fun j => f (bfun j)) := by
  rw [List.zip_map', List.filter_map, List.map_map]
  rfl

theorem sum_eq_zero_iff_of_nonneg (l : List ℚ) (h : ∀ x ∈ l, 0 ≤ x) :
    l.sum = 0 ↔ ∀ x ∈ l, x = 0 := by
  induction l with
  | nil => simp
  | cons a t ih =>
      have ha : 0 ≤ a := h a (by simp)
      have ht : ∀ x ∈ t, 0 ≤ x := fun x hx => h x (by simp [hx])
      have htsum : 0 ≤ t.sum := List.sum_nonneg ht
      simp only [List.sum_cons, List.mem_cons]
      constructor
      · intro h0
        have ha0 : a = 0 := by linarith
        have hs0 : t.sum = 0 := by linarith
        intro x hx
        rcases hx with rfl | hx
        · exact ha0
        · exact (ih ht).mp hs0 x hx
      · intro hall
        have ha0 : a = 0 := hall a (Or.inl rfl)
        have hs0 : t.sum = 0 := (ih ht).mpr (fun x hx => hall x (Or.inr hx))
        rw [ha0, hs0, add_zero]

theorem sum_pos_iff_of_nonneg (l : List ℚ) (h : ∀ x ∈ l, 0 ≤ x) :
    0 < l.sum ↔ ¬(∀ x ∈ l, x = 0) := by
  rw [← sum_eq_zero_iff_of_nonneg l h]
  constructor
  · intro hpos hz
    rw [hz] at hpos
    exact lt_irrefl 0 hpos
  · intro hne
    exact lt_of_le_of_ne (List.sum_nonneg h) (fun he => hne he.symm)

theorem check_one_nonneg (p : ℚ × ℚ) (h w : ℤ) (hc : _check_kps_coords p h w = 1) :
    0 ≤ p.1 ∧ 0 ≤ p.2 := by
  unfold _check_kps_coords at hc
  by_cases hw : w ≥ h
  · rw [if_pos hw] at hc
    dsimp only at hc
    split at hc
    · rename_i hcond
      obtain ⟨_, hx0, hy1, _⟩ := hcond
      refine ⟨hx0, le_trans ?_ hy1⟩
      have : (0 : ℤ) ≤ (w - h).fdiv 2 := Int.fdiv_nonneg (by omega) (by omega)
      exact_mod_cast this
    · norm_num at hc
  · rw [if_neg hw] at hc
    dsimp only at hc
    split at hc
    · rename_i hcond
      obtain ⟨_, hx1, hy0, _⟩ := hcond
      refine ⟨le_trans ?_ hx1, hy0⟩
      have : (0 : ℤ) ≤ (h - w).fdiv 2 := Int.fdiv_nonneg (by omega) (by omega)
      exact_mod_cast this
    · norm_num at hc

theorem filter_keypoints_nonneg (tk : List (ℚ × ℚ)) (h w : ℤ) (v : List ℚ)
    (hv : ∀ x ∈ v, 0 ≤ x) :
    ∀ t ∈ filter_keypoints tk h w v, 0 ≤ t.1 ∧ 0 ≤ t.2.1 ∧ 0 ≤ t.2.2 := by
  intro t ht
  unfold filter_keypoints at ht
  rw [List.mem_map] at ht
  obtain ⟨pv, hpv, rfl⟩ := ht
  have hv2 : 0 ≤ pv.2 := hv pv.2 (List.of_mem_zip hpv).2
  dsimp only
  by_cases hpos : 0 < pv.2
  · rcases check_kps_coords_cases pv.1 h w with hc | hc
    · rw [if_pos hpos, hc, if_pos rfl, if_neg (ne_of_gt hpos)]
      obtain ⟨hx, hy⟩ := check_one_nonneg pv.1 h w hc
      exact ⟨hx, hy, le_of_lt hpos⟩
    · rw [if_pos hpos, hc]
      norm_num
  · have hz : pv.2 = 0 := le_antisymm (not_lt.mp hpos) hv2
    rw [if_neg hpos, hz, if_pos rfl]
    norm_num

theorem slice_flat_nonneg (tra : List (ℚ × ℚ × ℚ))
    (htr : ∀ t ∈ tra, 0 ≤ t.1 ∧ 0 ≤ t.2.1 ∧ 0 ≤ t.2.2) (a b : ℕ) :
    ∀ x ∈ ((tra.drop a).take b).flatMap tripleFlat, 0 ≤ x := by
  intro x hx
  rw [List.mem_flatMap] at hx
  obtain ⟨t, htmem, hxin⟩ := hx
  have htra : t ∈ tra := List.mem_of_mem_drop (List.mem_of_mem_take htmem)
  obtain ⟨h1, h2, h3⟩ := htr t htra
  unfold tripleFlat at hxin
  simp only [List.mem_cons, List.not_mem_nil, or_false] at hxin
  rcases hxin with rfl | rfl | rfl
  · exact h1
  · exact h2
  · exact h3

/-- Flattened per-point visibilities of the supplied keypoint instances, as
`apply` builds them (tfms.py line 126). -/
def kpVis (kps : List KeyPoints) : List ℚ := kps.flatMap KeyPoints.visible

/-- Post-filter keypoint group of instance `j` under a uniform per-instance
point count `m`: the slice of the filtered transformed points belonging to
instance `j`, flattened to `[x, y, vis, ...]` values. -/
def kpGroup (tfms_list : List ATransform) (img : Image) (d : DOut) (kps : List KeyPoints)
    (m j : ℕ) : List ℚ :=
  (((filter_keypoints d.keypoints (contentBasis tfms_list img d).1
      (contentBasis tfms_list img d).2 (kpVis kps)).drop (m * j)).take m).flatMap tripleFlat

/-- Instance indices that survive the keypoint-degeneracy removal: those
whose post-filter group has positive value sum. -/
def keptIdx (tfms_list : List ATransform) (img : Image) (d : DOut) (kps : List KeyPoints)
    (n m : ℕ) : List ℕ :=
  (List.range n).filter (fun j => 0 < (kpGroup tfms_list img d kps m j).sum)

/-- Specialization of the zip-filter-map conversion to a bare index range. -/
theorem map_filter_zip_range {γ : Type} (n : ℕ) (G : ℕ → List ℚ) (f : ℕ → γ) :
    (((List.range n).zip ((List.range n).map G)).filter
      (fun pr => 0 < pr.2.sum)).map (fun pr => f pr.1) =
      ((List.range n).filter (fun j => 0 < (G j).sum)).map f := by
  have h := map_filter_zip_maps n id G f
  rw [List.map_id] at h
  simpa using h

/-- C3 (amended): restricted to runs where the underlying pipeline drops no
instance (`d.labels` is the full identity range) and all instances carry
the same positive keypoint count `m`, with nonnegative incoming
visibilities: `apply` succeeds and every returned field keeps exactly the
instances whose post-filter keypoint group has positive sum; an instance
whose entire post-filter group is all-zero is absent from every returned
field (keypoints, labels, bboxes, masks, iscrowds), and with nonnegative
entries the group-sum test is the sole keypoint-based removal criterion
(kept if and only if not all-zero).  Without these restrictions the
original claim is false, see the counterexample. -/
theorem C3_degenerate_drop_amended (tfms_list : List ATransform) (img : Image)
    (L : List ℤ) (B : List BBox) (M : MaskArray) (IC : List ℤ)
    (kps : List KeyPoints) (procs : Procs) (d : DOut) (n m : ℕ)
    (hone : (get_transform tfms_list nameOneOrOther).isSome = false)
    (hn : kps.length = n) (hn0 : 0 < n) (hm0 : 0 < m)
    (hx : ∀ o ∈ kps, o.xyv.length = 3 * m)
    (hcl : ∀ o ∈ kps, o.labels.length = m)
    (hvnn : ∀ o ∈ kps, ∀ x ∈ o.visible, 0 ≤ x)
    (hdk : d.keypoints.length = n * m)
    (hdl : d.labels = List.range n)
    (hdb : d.bboxes.length = n) :
    apply tfms_list img (some L) (some B) (some M) (some IC) (some kps) procs d =
      (.ok ⟨d.image, d.image.height, d.image.width,
        some ((keptIdx tfms_list img d kps n m).map (fun j => L.getD j 0)),
        some ((keptIdx tfms_list img d kps n m).map (fun j =>
          BBox.from_xyxy (filter_boxes (d.bboxes.getD j (0, 0, 0, 0))
            (contentBasis tfms_list img d).1 (contentBasis tfms_list img d).2))),
        some ⟨(keptIdx tfms_list img d kps n m).map (fun j => d.masks.getD j 0)⟩,
        some ((keptIdx tfms_list img d kps n m).map (fun j => IC.getD j 0)),
        some ((keptIdx tfms_list img d kps n m).map (fun j =>
          KeyPoints.from_xyv (kpGroup tfms_list img d kps m j) (kps.headD ⟨[], []⟩).labels))⟩,
       ⟨procs.bboxes, procs.keypoints⟩) ∧
    (∀ j < n, (∀ x ∈ kpGroup tfms_list img d kps m j, x = 0) →
      j ∉ keptIdx tfms_list img d kps n m) ∧
    (∀ j < n, (j ∈ keptIdx tfms_list img d kps n m ↔
      ¬(∀ x ∈ kpGroup tfms_list img d kps m j, x = 0))) := by
  have hGnn : ∀ j, ∀ x ∈ kpGroup tfms_list img d kps m j, 0 ≤ x := by
    intro j
    apply slice_flat_nonneg
    apply filter_keypoints_nonneg
    intro x hx2
    rw [kpVis, List.mem_flatMap] at hx2
    obtain ⟨o, ho, hxo⟩ := hx2
    exact hvnn o ho x hxo
  refine ⟨?_, ?_, ?_⟩
  · rw [apply_uniform_eq tfms_list img (some L) (some B) (some M) (some IC) kps procs d n m
      hone hn hn0 hm0 hx hcl hdk]
    unfold keptIdx kpGroup kpVis
    set G : ℕ → List ℚ := fun j =>
      (((filter_keypoints d.keypoints (contentBasis tfms_list img d).1
          (contentBasis tfms_list img d).2 (kps.flatMap KeyPoints.visible)).drop (m * j)).take m).flatMap
        tripleFlat with hG
    have hB : d.bboxes = (List.range n).map (fun j => d.bboxes.getD j (0, 0, 0, 0)) :=
      eq_map_range_getD (0, 0, 0, 0) d.bboxes n hdb
    rw [Prod.mk.injEq]
    refine ⟨?_, by simp⟩
    rw [Except.ok.injEq, Out.mk.injEq]
    refine ⟨rfl, rfl, rfl, ?_, ?_, ?_, ?_, ?_⟩
    · rw [hdl]
      exact congrArg some (map_filter_zip_range n G (fun j => L.getD j 0))
    · conv_lhs => rw [hB]
      rw [List.map_map]
      exact congrArg some (map_filter_zip_maps n
        (fun j => filter_boxes (d.bboxes.getD j (0, 0, 0, 0)) (contentBasis tfms_list img d).1
          (contentBasis tfms_list img d).2) G BBox.from_xyxy)
    · rw [hdl]
      exact congrArg some (congrArg MaskArray.mk
        (map_filter_zip_range n G (fun j => d.masks.getD j 0)))
    · rw [hdl]
      exact congrArg some (map_filter_zip_range n G (fun j => IC.getD j 0))
    · rw [List.filter_map, List.map_map]
      rfl
  · intro j hj hz
    unfold keptIdx
    rw [List.mem_filter]
    intro ⟨_, hsum⟩
    rw [decide_eq_true_iff] at hsum
    have : (kpGroup tfms_list img d kps m j).sum = 0 :=
      (sum_eq_zero_iff_of_nonneg _ (hGnn j)).mpr hz
    rw [this] at hsum
    exact lt_irrefl 0 hsum
  · intro j hj
    unfold keptIdx
    rw [List.mem_filter]
    rw [decide_eq_true_iff]
    rw [← sum_pos_iff_of_nonneg _ (hGnn j)]
    constructor
    · intro ⟨_, h2⟩
      exact h2
    · intro h2
      exact ⟨List.mem_range.mpr hj, h2⟩

/-- C3 counterexample: when the pipeline drops an instance, the cross-field
removal is misaligned.  Two instances with one keypoint each; the pipeline
dropped instance 0 (survivor index list is `[1]`); instance 1's post-filter
keypoint group is all-zero, so the claim demands its label `20` be absent
from the returned labels — yet the returned labels are exactly `[20]`
(`zip` pairs survivor index 1 with instance 0's keypoint group). -/
theorem C3_degenerate_drop_counterexample :
    apply [] ⟨100, 100⟩ (some [10, 20]) none none none
      (some [⟨[5, 5, 1], [0]⟩, ⟨[7, 7, 0], [0]⟩]) ⟨true, true⟩
      ⟨⟨100, 100⟩, [1], [], [], [(5, 5), (7, 7)]⟩ =
      (.ok ⟨⟨100, 100⟩, 100, 100, some [20], none, none, none,
        some [⟨[5, 5, 1], [0]⟩]⟩, ⟨false, true⟩) ∧
    (∀ x ∈ kpGroup [] ⟨100, 100⟩ ⟨⟨100, 100⟩, [1], [], [], [(5, 5), (7, 7)]⟩
      [⟨[5, 5, 1], [0]⟩, ⟨[7, 7, 0], [0]⟩] 1 1, x = 0) ∧
    ([10, 20] : List ℤ).getD 1 0 = 20 := by
  have h1 : (0 : ℚ) < ([5, 5, 1] : List ℚ).sum := by
    norm_num [List.sum_cons, List.sum_nil]
  have h0 : ¬((0 : ℚ) < ([0, 0, 0] : List ℚ).sum) := by
    norm_num [List.sum_cons, List.sum_nil]
  refine ⟨?_, by decide, by decide⟩
  unfold apply
  rw [show applyPre [] (some [⟨[5, 5, 1], [0]⟩, ⟨[7, 7, 0], [0]⟩]) = .ok () from by decide]
  dsimp only
  simp only [applyCore]
  rw [show kpStage [] ⟨100, 100⟩ [⟨[5, 5, 1], [0]⟩, ⟨[7, 7, 0], [0]⟩]
      ⟨⟨100, 100⟩, [1], [], [], [(5, 5), (7, 7)]⟩ = .ok [[5, 5, 1], [0, 0, 0]] from by decide]
  dsimp only
  rw [buildOut_some_eq]
  rw [Prod.mk.injEq]
  refine ⟨?_, by decide⟩
  rw [Except.ok.injEq, Out.mk.injEq]
  refine ⟨rfl, rfl, rfl, ?_, rfl, rfl, rfl, ?_⟩
  · show some ((((([1] : List ℕ).zip ([[5, 5, 1], [0, 0, 0]] : List (List ℚ)))).filter
      (fun pr => 0 < pr.2.sum)).map (fun pr => ([10, 20] : List ℤ).getD pr.1 0)) = some [20]
    rw [show (([1] : List ℕ).zip ([[5, 5, 1], [0, 0, 0]] : List (List ℚ))) =
      [(1, [5, 5, 1])] from rfl]
    simp [List.filter_cons]
    norm_num
  · show some ((([[5, 5, 1], [0, 0, 0]] : List (List ℚ)).filter (fun kk => 0 < kk.sum)).map
      (fun kk => KeyPoints.from_xyv kk [0])) = some [⟨[5, 5, 1], [0]⟩]
    simp [List.filter_cons]
    norm_num [KeyPoints.from_xyv]

/-- C7 (amended): the flat transformed point sequence is regrouped into
EQUAL-SIZE chunks of `len(l) // len(keypoints)` values, every returned
group is paired with the FIRST instance's per-point labels
(`keypoints[0].labels`), and only when all instances share the same point
count `m` does chunk `j` coincide with instance `j`'s own post-filter
points (`kpGroup`), as stated here.  With differing per-instance counts the
regrouping does not follow each instance's own point count, see the
counterexample. -/
theorem C7_regroup_amended (tfms_list : List ATransform) (img : Image)
    (labels : Option (List ℤ)) (bboxes : Option (List BBox)) (masks : Option MaskArray)
    (iscrowds : Option (List ℤ)) (kps : List KeyPoints) (procs : Procs) (d : DOut) (n m : ℕ)
    (hone : (get_transform tfms_list nameOneOrOther).isSome = false)
    (hn : kps.length = n) (hn0 : 0 < n) (hm0 : 0 < m)
    (hx : ∀ o ∈ kps, o.xyv.length = 3 * m)
    (hcl : ∀ o ∈ kps, o.labels.length = m)
    (hdk : d.keypoints.length = n * m) :
    ∃ out : Out, (apply tfms_list img labels bboxes masks iscrowds (some kps) procs d).1 =
        .ok out ∧
      out.keypoints = some ((keptIdx tfms_list img d kps n m).map (fun j =>
        KeyPoints.from_xyv (kpGroup tfms_list img d kps m j) (kps.headD ⟨[], []⟩).labels)) := by
  have hm := apply_uniform_eq tfms_list img labels bboxes masks iscrowds kps procs d n m
    hone hn hn0 hm0 hx hcl hdk
  refine ⟨_, by rw [hm], ?_⟩
  unfold keptIdx kpGroup kpVis
  dsimp only
  rw [List.filter_map, List.map_map]
  rfl

/-- C7 counterexample: two instances with 1 and 3 keypoints (all visible,
all inside the region, nothing dropped).  The claim demands output group 0
be instance 0's single point with instance 0's labels and group 1 be
instance 1's three points with labels `[5, 6, 7]`; the code instead
returns two chunks of two points each, both carrying instance 0's label
list `[4]`. -/
theorem C7_regroup_counterexample :
    (apply [] ⟨10, 10⟩ none none none none
      (some [⟨[1, 1, 1], [4]⟩, ⟨[2, 2, 1, 3, 3, 1, 4, 4, 1], [5, 6, 7]⟩]) ⟨true, true⟩
      ⟨⟨10, 10⟩, [0, 1], [], [], [(1, 1), (2, 2), (3, 3), (4, 4)]⟩) =
      (.ok ⟨⟨10, 10⟩, 10, 10, none, none, none, none,
        some [⟨[1, 1, 1, 2, 2, 1], [4]⟩, ⟨[3, 3, 1, 4, 4, 1], [4]⟩]⟩, ⟨false, true⟩) ∧
    (KeyPoints.mk [1, 1, 1, 2, 2, 1] [4]).xyv ≠ [1, 1, 1] ∧
    (KeyPoints.mk [3, 3, 1, 4, 4, 1] [4]).labels ≠ [5, 6, 7] := by
  have h1 : (0 : ℚ) < ([1, 1, 1, 2, 2, 1] : List ℚ).sum := by
    norm_num [List.sum_cons, List.sum_nil]
  have h2 : (0 : ℚ) < ([3, 3, 1, 4, 4, 1] : List ℚ).sum := by
    norm_num [List.sum_cons, List.sum_nil]
  refine ⟨?_, by decide, by decide⟩
  unfold apply
  rw [show applyPre [] (some [⟨[1, 1, 1], [4]⟩, ⟨[2, 2, 1, 3, 3, 1, 4, 4, 1], [5, 6, 7]⟩]) =
      .ok () from by decide]
  dsimp only
  simp only [applyCore]
  rw [show kpStage [] ⟨10, 10⟩ [⟨[1, 1, 1], [4]⟩, ⟨[2, 2, 1, 3, 3, 1, 4, 4, 1], [5, 6, 7]⟩]
      ⟨⟨10, 10⟩, [0, 1], [], [], [(1, 1), (2, 2), (3, 3), (4, 4)]⟩ =
      .ok [[1, 1, 1, 2, 2, 1], [3, 3, 1, 4, 4, 1]] from by decide]
  dsimp only
  rw [buildOut_some_eq]
  rw [Prod.mk.injEq]
  refine ⟨?_, by decide⟩
  rw [Except.ok.injEq, Out.mk.injEq]
  refine ⟨rfl, rfl, rfl, rfl, rfl, rfl, rfl, ?_⟩
  show some ((([[1, 1, 1, 2, 2, 1], [3, 3, 1, 4, 4, 1]] : List (List ℚ)).filter
      (fun kk => 0 < kk.sum)).map (fun kk => KeyPoints.from_xyv kk [4])) =
    some [⟨[1, 1, 1, 2, 2, 1], [4]⟩, ⟨[3, 3, 1, 4, 4, 1], [4]⟩]
  simp [List.filter_cons]
  norm_num [KeyPoints.from_xyv]

/-- C3 witness: the amended theorem applied to a concrete one-instance
sample. -/
theorem C3_degenerate_drop_witness :
    apply [] ⟨10, 10⟩ (some [7]) (some [⟨0, 0, 2, 2⟩]) (some ⟨[3]⟩) (some [9])
      (some [⟨[1, 1, 1], [5]⟩]) ⟨true, true⟩
      ⟨⟨10, 10⟩, [0], [(0, 0, 2, 2)], [3], [(1, 1)]⟩ =
      (.ok ⟨⟨10, 10⟩, 10, 10,
        some ((keptIdx [] ⟨10, 10⟩ ⟨⟨10, 10⟩, [0], [(0, 0, 2, 2)], [3], [(1, 1)]⟩
          [⟨[1, 1, 1], [5]⟩] 1 1).map (fun j => ([7] : List ℤ).getD j 0)),
        some ((keptIdx [] ⟨10, 10⟩ ⟨⟨10, 10⟩, [0], [(0, 0, 2, 2)], [3], [(1, 1)]⟩
          [⟨[1, 1, 1], [5]⟩] 1 1).map (fun j =>
            BBox.from_xyxy (filter_boxes
              (([((0 : ℚ), (0 : ℚ), (2 : ℚ), (2 : ℚ))] : List (ℚ × ℚ × ℚ × ℚ)).getD j
                (0, 0, 0, 0))
              (contentBasis [] ⟨10, 10⟩ ⟨⟨10, 10⟩, [0], [(0, 0, 2, 2)], [3], [(1, 1)]⟩).1
              (contentBasis [] ⟨10, 10⟩ ⟨⟨10, 10⟩, [0], [(0, 0, 2, 2)], [3], [(1, 1)]⟩).2))),
        some ⟨(keptIdx [] ⟨10, 10⟩ ⟨⟨10, 10⟩, [0], [(0, 0, 2, 2)], [3], [(1, 1)]⟩
          [⟨[1, 1, 1], [5]⟩] 1 1).map (fun j => ([3] : List ℤ).getD j 0)⟩,
        some ((keptIdx [] ⟨10, 10⟩ ⟨⟨10, 10⟩, [0], [(0, 0, 2, 2)], [3], [(1, 1)]⟩
          [⟨[1, 1, 1], [5]⟩] 1 1).map (fun j => ([9] : List ℤ).getD j 0)),
        some ((keptIdx [] ⟨10, 10⟩ ⟨⟨10, 10⟩, [0], [(0, 0, 2, 2)], [3], [(1, 1)]⟩
          [⟨[1, 1, 1], [5]⟩] 1 1).map (fun j =>
            KeyPoints.from_xyv
              (kpGroup [] ⟨10, 10⟩ ⟨⟨10, 10⟩, [0], [(0, 0, 2, 2)], [3], [(1, 1)]⟩
                [⟨[1, 1, 1], [5]⟩] 1 j)
              (([⟨[1, 1, 1], [5]⟩] : List KeyPoints).headD ⟨[], []⟩).labels))⟩,
       ⟨true, true⟩) :=
  (C3_degenerate_drop_amended [] ⟨10, 10⟩ [7] [⟨0, 0, 2, 2⟩] ⟨[3]⟩ [9] [⟨[1, 1, 1], [5]⟩] ⟨true, true⟩
    ⟨⟨10, 10⟩, [0], [(0, 0, 2, 2)], [3], [(1, 1)]⟩ 1 1 (by decide) (by decide) (by decide)
    (by decide) (by decide) (by decide) (by decide) (by decide) (by decide) (by decide)).1

/-- C7 witness: the amended regrouping law at a concrete uniform-count
sample. -/
theorem C7_regroup_witness :
    ∃ out : Out,
      (apply [] ⟨10, 10⟩ none none none none (some [⟨[1, 1, 1], [5]⟩]) ⟨true, true⟩
        ⟨⟨10, 10⟩, [0], [], [], [(1, 1)]⟩).1 = .ok out ∧
      out.keypoints = some ((keptIdx [] ⟨10, 10⟩ ⟨⟨10, 10⟩, [0], [], [], [(1, 1)]⟩
        [⟨[1, 1, 1], [5]⟩] 1 1).map (fun j =>
          KeyPoints.from_xyv
            (kpGroup [] ⟨10, 10⟩ ⟨⟨10, 10⟩, [0], [], [], [(1, 1)]⟩ [⟨[1, 1, 1], [5]⟩] 1 j)
            (([⟨[1, 1, 1], [5]⟩] : List KeyPoints).headD ⟨[], []⟩).labels)) :=
  C7_regroup_amended [] ⟨10, 10⟩ none none none none [⟨[1, 1, 1], [5]⟩] ⟨true, true⟩
    ⟨⟨10, 10⟩, [0], [], [], [(1, 1)]⟩ 1 1 (by decide) (by decide) (by decide) (by decide)
    (by decide) (by decide) (by decide)
end Icevision
